import Mathlib

/-!
Shallow embedding of the Cachito request lifecycle core
(`cachito/web/models.py`): the request aggregate, its state-transition
history, the creation and snapshot operations, and the input validators.
Machine-level concerns (SQLAlchemy sessions, timestamps from `now()`,
autoincrement ids) are made explicit: operations that rely on the database
assigning a timestamp or id take them as extra parameters, and theorems
that depend on the database clock carry monotonicity hypotheses.
-/

deriving instance DecidableEq for Except

namespace Cachito

/-- Python values that can appear in a `Request.from_json` kwargs dict in
this core: strings (repo, ref) and lists of strings (pkg_managers). -/
inductive PyVal where
  | str (s : String)
  | strList (l : List String)
deriving DecidableEq, Repr

/-- Python truthiness of a `PyVal`, as used by `if not pkg_managers_names`. -/
def PyVal.truthy : PyVal → Bool
  | .str s => s ≠ ""
  | .strList l => l ≠ []

/-- `set(x)` on a `PyVal`, kept as a duplicate-free list: for a list the
distinct elements in first-occurrence order; for a string Python iterates
its characters, so the distinct one-character strings. -/
def PyVal.toStrSet : PyVal → List String
  | .str s => (s.data.map (fun c => String.mk [c])).eraseDups
  | .strList l => l.eraseDups

/-- `RequestStateMapping.__members__`: name-to-value pairs of the state
enum, in declaration order. -/
def stateMembers : List (String × Nat) :=
  [("in_progress", 1), ("complete", 2), ("failed", 3), ("stale", 4)]

/-- `RequestStateMapping(n).name` when `n` is a member value, else `none`
(the Python constructor raises `ValueError` there). -/
def RequestStateMapping.name? (n : Nat) : Option String :=
  (stateMembers.find? (fun p => p.2 == n)).map Prod.fst

/-- Insertion sort on strings, modelling Python's `sorted` (the core
decidability instance is pinned so that the sort evaluates by reduction). -/
def insertSorted (s : String) : List String → List String
  | [] => [s]
  | t :: ts =>
      @ite _ (@LE.le String String.instLE s t) (String.decLE s t)
        (s :: t :: ts) (t :: insertSorted s ts)

/-- `RequestStateMapping.get_state_names()`: the member names, sorted. -/
def RequestStateMapping.get_state_names : List String :=
  (stateMembers.map Prod.fst).foldr insertSorted []

/-- A `RequestState` row: enum value of the state, free-text reason, the
`updated` timestamp the database assigned, and the autoincrement row id. -/
structure RequestState where
  state : Nat
  state_reason : String
  updated : Nat
  id : Nat
deriving DecidableEq, Repr

/-- `RequestState.state_name`: the display name, `none` when `self.state`
is falsy (the guard in the source) or not a member value. -/
def RequestState.state_name (s : RequestState) : Option String :=
  if s.state ≠ 0 then RequestStateMapping.name? s.state else none

/-- A `PackageManager` row. -/
structure PackageManager where
  id : Nat
  name : String
deriving DecidableEq, Repr

/-- A `Dependency` row: a (name, type, version) triple. -/
structure Dependency where
  name : String
  type : String
  version : String
deriving DecidableEq, Repr

/-- An `EnvironmentVariable` row: a (name, value) pair. -/
structure EnvironmentVariable where
  name : String
  value : String
deriving DecidableEq, Repr

/-- The `Request` aggregate. `states` holds the rows in the order the
`states` relationship yields them (ordered by `updated`; with the
database's monotone clock this is append order), `environment_variables`
in the order of that relationship (ordered by name). `user` is the
username of the linked `User` row, if any. -/
structure Request where
  id : Nat
  repo : PyVal
  ref : PyVal
  user_id : Option Nat
  user : Option String
  pkg_managers : List PackageManager
  dependencies : List Dependency
  environment_variables : List EnvironmentVariable
  states : List RequestState
deriving DecidableEq, Repr

/-- `Request.last_state`: the query
`ORDER BY updated DESC, id DESC LIMIT 1`, i.e. the row maximal in the
lexicographic (updated, id) order, or `none` when there are no rows. -/
def lastStateStep (acc : Option RequestState) (s : RequestState) :
    Option RequestState :=
  match acc with
  | none => some s
  | some t =>
      if t.updated < s.updated ∨ (t.updated = s.updated ∧ t.id < s.id) then some s
      else some t

def Request.last_state (r : Request) : Option RequestState :=
  r.states.foldl lastStateStep none

/-- The display name of a request's current state: `last_state.state_name`
with the `self.last_state and ...` truthiness check folded in. -/
def Request.currentStateName (r : Request) : Option String :=
  r.last_state.bind RequestState.state_name

/-- `Request.add_state(state, state_reason)`. The database-assigned
timestamp and row id of the new row are the explicit `updated` and `rsid`
arguments. Raised `ValidationError`s become `Except.error` of the message. -/
def Request.add_state (r : Request) (state state_reason : String)
    (updated rsid : Nat) : Except String Request :=
  if (match r.last_state with
      | some ls => ls.state_name == some "stale" && state != "stale"
      | none => false) then
    .error "A stale request cannot change states"
  else
    match stateMembers.lookup state with
    | none =>
        .error ("The state \"" ++ state ++ "\" is invalid. It must be one of: "
          ++ String.intercalate ", " RequestStateMapping.get_state_names ++ ".")
    | some state_int =>
        .ok { r with states := r.states ++ [⟨state_int, state_reason, updated, rsid⟩] }

/-- The `required_params` constant of `Request.from_json`. -/
def requiredParams : List String := ["repo", "ref", "pkg_managers"]

/-- `missing_params = required_params - set(kwargs.keys())`, as a list in
the deterministic order of `required_params`. -/
def missingParams (kwargs : List (String × PyVal)) : List String :=
  requiredParams.filter (fun k => ¬ (kwargs.map Prod.fst).contains k)

/-- `invalid_params = kwargs.keys() - required_params`. -/
def invalidParams (kwargs : List (String × PyVal)) : List String :=
  (kwargs.map Prod.fst).filter (fun k => ¬ requiredParams.contains k)

/-- `found_pkg_managers`: the registry rows whose name is in the
requested set, in registry (query) order. -/
def foundPkgManagers (registry : List PackageManager) (names : List String) :
    List PackageManager :=
  registry.filter (fun pm => names.contains pm.name)

/-- `invalid_pkg_managers = pkg_managers_names - found_pkg_managers_names`. -/
def invalidPkgManagers (registry : List PackageManager) (names : List String) :
    List String :=
  names.filter
    (fun n => ¬ ((foundPkgManagers registry names).map PackageManager.name).contains n)

/-- `Request.from_json(kwargs)`. The arguments the source reads from
ambient context are explicit: `registry` is the `PackageManager.query`
table, `current_user` the authenticated (id, username) pair if any
(`current_user.is_authenticated` is false exactly when it is `none`),
`rid` the id the database will assign to the request and `updated`/`rsid`
the timestamp and row id of the initial state row. -/
def Request.from_json (registry : List PackageManager)
    (current_user : Option (Nat × String)) (kwargs : List (String × PyVal))
    (rid updated rsid : Nat) : Except String Request :=
  if missingParams kwargs ≠ [] then
    .error ("Missing required parameter(s): "
      ++ String.intercalate ", " (missingParams kwargs))
  else if invalidParams kwargs ≠ [] then
    .error ("The following parameters are invalid: "
      ++ String.intercalate ", " (invalidParams kwargs))
  else
    match kwargs.lookup "pkg_managers" with
    | none => .error "KeyError: pkg_managers"
    | some pkg_managers_val =>
      if ¬ pkg_managers_val.truthy then
        .error "At least one package manager is required"
      else if pkg_managers_val.toStrSet.length
          ≠ (foundPkgManagers registry pkg_managers_val.toStrSet).length then
        .error ("Invalid package manager(s): "
          ++ String.intercalate ", "
               (invalidPkgManagers registry pkg_managers_val.toStrSet))
      else
        match kwargs.lookup "repo", kwargs.lookup "ref" with
        | some repo, some ref =>
            Request.add_state
              { id := rid, repo := repo, ref := ref
                user_id := current_user.map Prod.fst
                user := current_user.map Prod.snd
                pkg_managers := foundPkgManagers registry pkg_managers_val.toStrSet
                dependencies := [], environment_variables := [], states := [] }
              "in_progress" "The request was initiated" updated rsid
        | _, _ => .error "KeyError: repo or ref"

/-- One entry of the `states` list built inside `Request.to_json`:
display name, reason and timestamp of a transition. -/
structure StateJson where
  state : String
  state_reason : String
  updated : Nat
deriving DecidableEq, Repr

/-- One element of the `states` list comprehension in `Request.to_json`;
`RequestStateMapping(state.state)` raises `ValueError` on a non-member
value, modelled as `Except.error`. -/
def stateToJson (s : RequestState) : Except String StateJson :=
  match RequestStateMapping.name? s.state with
  | some n => .ok ⟨n, s.state_reason, s.updated⟩
  | none => .error "ValueError: not a valid RequestStateMapping"

/-- One `d[k] = v` step of building a Python (ordered) dict from pairs:
an existing key keeps its position and gets the new value, a new key is
appended. -/
def odInsert (acc : List (String × String)) (kv : String × String) :
    List (String × String) :=
  if acc.any (fun p => p.1 == kv.1) then
    acc.map (fun p => if p.1 == kv.1 then (p.1, kv.2) else p)
  else acc ++ [kv]

/-- `OrderedDict(pairs)`: fold the pairs into a dict, as an association
list with distinct keys. A duplicated key is silently overwritten by the
later value. -/
def orderedDict (l : List (String × String)) : List (String × String) :=
  l.foldl odInsert []

/-- The result of `Request.to_json`: the fixed-key dict it returns, with
`rv.update(latest_state)` carried out in the `state`, `state_reason` and
`updated` fields. -/
structure RequestJson where
  dependencies : List Dependency
  id : Nat
  repo : PyVal
  ref : PyVal
  pkg_managers : List String
  state_history : List StateJson
  user : Option String
  environment_variables : List (String × String)
  state : String
  state_reason : String
  updated : Nat
deriving DecidableEq, Repr

/-- `Request.to_json()`. `states[0]` on an empty list raises `IndexError`,
modelled as `Except.error`. -/
def Request.to_json (r : Request) : Except String RequestJson := do
  let pkg_managers := r.pkg_managers.map PackageManager.name
  let states ← r.states.mapM stateToJson
  let states := states.reverse
  match states.head? with
  | none => .error "IndexError: list index out of range"
  | some latest_state =>
      let env_vars_json :=
        orderedDict (r.environment_variables.map (fun e => (e.name, e.value)))
      .ok { dependencies := r.dependencies, id := r.id, repo := r.repo, ref := r.ref
            pkg_managers := pkg_managers, state_history := states, user := r.user
            environment_variables := env_vars_json
            state := latest_state.state, state_reason := latest_state.state_reason
            updated := latest_state.updated }

/-- The last value stored under name `n` in a list of (name, value)
pairs, if any. -/
def lastMatch (n : String) : List (String × String) → Option String
  | [] => none
  | kv :: t => (lastMatch n t).or (if kv.1 == n then some kv.2 else none)

/-- A JSON value, for the reconciliation-input validators. -/
inductive JSON where
  | null
  | bool (b : Bool)
  | num (n : Int)
  | str (s : String)
  | arr (l : List JSON)
  | obj (l : List (String × JSON))

/-- `dependency.keys() == {'name', 'type', 'version'}`: set equality of
the object's keys with the three required keys. -/
def keysAreNameTypeVersion (l : List (String × JSON)) : Bool :=
  ["name", "type", "version"].all (fun k => (l.map Prod.fst).contains k)
    && (l.map Prod.fst).all (fun k => ["name", "type", "version"].contains k)

/-- The `isinstance(dependency[key], str)` check of one key; a missing
key would be a `KeyError` (unreachable after the keys check). -/
def checkDepKey (l : List (String × JSON)) (k : String) : Except String Unit :=
  match l.lookup k with
  | some (JSON.str _) => .ok ()
  | some _ => .error ("The \"" ++ k ++ "\" key of the dependency must be a string")
  | none => .error ("KeyError: " ++ k)

/-- `Dependency.validate_json(dependency)`. -/
def Dependency.validate_json (dependency : JSON) : Except String Unit :=
  match dependency with
  | JSON.obj l =>
      if keysAreNameTypeVersion l then do
        checkDepKey l "name"
        checkDepKey l "type"
        checkDepKey l "version"
      else
        .error "A dependency must be a JSON object with the keys name, type, and version"
  | _ => .error "A dependency must be a JSON object with the keys name, type, and version"

/-- `EnvironmentVariable.validate_json(name, value)`. -/
def EnvironmentVariable.validate_json (_name : String) (value : JSON) :
    Except String Unit :=
  match value with
  | JSON.str _ => .ok ()
  | _ => .error "The value of environment variables must be a string"

/-- A worker stage of the request pipeline, with its parameters. -/
inductive Stage where
  | fetchSource (repo ref : PyVal) (request_id : Nat)
  | resolveDeps (pkg_manager : String) (request_id : Nat)
  | assembleArchive (request_id : Nat)
  | setState (request_id : Nat) (state state_reason : String)
deriving DecidableEq, Repr

/-- A stage descriptor together with the request id its bound error
handler addresses, if one is bound. -/
structure BoundStage where
  stage : Stage
  on_error : Option Nat
deriving DecidableEq, Repr

/-- Modelled from the spec: the pipeline orchestrator (`build_pipeline`)
lives in the request-intake layer (`api_v1`), which is not part of this
excerpt; per §4.3 the chain is a source-fetch stage parameterized by the
repository, revision and request id, then one dependency-resolution stage
per requested package manager in declared order, then an archive-assembly
stage, then a terminal stage appending `complete` with a fixed success
reason, with an error handler addressing the request bound to every stage
except the terminal one. -/
def build_pipeline (r : Request) : List BoundStage :=
  ⟨Stage.fetchSource r.repo r.ref r.id, some r.id⟩
    :: r.pkg_managers.map (fun pm => ⟨Stage.resolveDeps pm.name r.id, some r.id⟩)
    ++ [⟨Stage.assembleArchive r.id, some r.id⟩,
        ⟨Stage.setState r.id "complete" "Completed successfully", none⟩]

/-- Modelled from the spec: the worker-facing state-update entry point
(the PATCH handler of the intake layer, not part of this excerpt), which
per the idempotence rule of §4.1 skips the append when the supplied
target state equals the current state, a silent no-op returning success,
and otherwise calls `Request.add_state`. -/
def Request.set_state (r : Request) (state state_reason : String)
    (updated rsid : Nat) : Except String Request :=
  match r.last_state with
  | some ls => if ls.state_name == some state then .ok r
               else r.add_state state state_reason updated rsid
  | none => r.add_state state state_reason updated rsid

/-! ## Helper lemmas -/

/-- The database's chronological order on state rows: the `now()`
timestamps are non-decreasing and the autoincrement ids strictly
increasing in append order. -/
def chronRel (a b : RequestState) : Prop :=
  a.updated ≤ b.updated ∧ a.id < b.id

instance : DecidableRel chronRel := fun a b =>
  inferInstanceAs (Decidable (a.updated ≤ b.updated ∧ a.id < b.id))

theorem lastStateStep_of_chronRel {t s : RequestState} (h : chronRel t s) :
    lastStateStep (some t) s = some s := by
  rcases h with ⟨h1, h2⟩
  rcases Nat.lt_or_ge t.updated s.updated with h3 | h3
  · simp [lastStateStep, h3]
  · have h4 : t.updated = s.updated := Nat.le_antisymm h1 h3
    simp [lastStateStep, h4, h2]

theorem foldl_lastStateStep (l : List RequestState) (t : RequestState)
    (h : List.Chain' chronRel (t :: l)) :
    l.foldl lastStateStep (some t) = (t :: l).getLast? := by
  induction l generalizing t with
  | nil => simp [List.foldl]
  | cons s l ih =>
      rw [List.chain'_cons] at h
      rw [List.foldl_cons, lastStateStep_of_chronRel h.1, List.getLast?_cons_cons]
      exact ih s h.2

/-- On a chronologically ordered history the `ORDER BY updated DESC,
id DESC LIMIT 1` query returns the most recently appended row. -/
theorem last_state_eq_getLast (r : Request)
    (h : List.Chain' chronRel r.states) :
    r.last_state = r.states.getLast? := by
  unfold Request.last_state
  cases hs : r.states with
  | nil => rfl
  | cons t l =>
      rw [hs] at h
      rw [List.foldl_cons]
      exact foldl_lastStateStep l t h

theorem stateMembers_lookup_none {s : String}
    (h1 : s ≠ "in_progress") (h2 : s ≠ "complete") (h3 : s ≠ "failed")
    (h4 : s ≠ "stale") :
    stateMembers.lookup s = none := by
  have e1 : (s == "in_progress") = false := by simp [h1]
  have e2 : (s == "complete") = false := by simp [h2]
  have e3 : (s == "failed") = false := by simp [h3]
  have e4 : (s == "stale") = false := by simp [h4]
  simp [stateMembers, List.lookup_cons, e1, e2, e3, e4]

theorem stateMembers_lookup_name {s : String} {n : Nat}
    (h : stateMembers.lookup s = some n) :
    RequestStateMapping.name? n = some s ∧ n ≠ 0 := by
  by_cases h1 : s = "in_progress"
  · subst h1
    rw [show stateMembers.lookup "in_progress" = some 1 from by decide] at h
    injection h with h; subst h; decide
  by_cases h2 : s = "complete"
  · subst h2
    rw [show stateMembers.lookup "complete" = some 2 from by decide] at h
    injection h with h; subst h; decide
  by_cases h3 : s = "failed"
  · subst h3
    rw [show stateMembers.lookup "failed" = some 3 from by decide] at h
    injection h with h; subst h; decide
  by_cases h4 : s = "stale"
  · subst h4
    rw [show stateMembers.lookup "stale" = some 4 from by decide] at h
    injection h with h; subst h; decide
  · rw [stateMembers_lookup_none h1 h2 h3 h4] at h
    exact absurd h (by simp)

/-- A successful `add_state` appends exactly one row, whose state value
is the looked-up member value, and changes nothing else. -/
theorem add_state_ok (q q' : Request) (s re : String) (t i : Nat)
    (h : q.add_state s re t i = .ok q') :
    ∃ n, stateMembers.lookup s = some n
      ∧ q' = { q with states := q.states ++ [⟨n, re, t, i⟩] } := by
  unfold Request.add_state at h
  split at h
  · exact absurd h (by simp)
  · split at h
    · exact absurd h (by simp)
    · rename_i n hn
      exact ⟨n, hn, by injection h with h; exact h.symm⟩

theorem mem_eraseDups_loop {α} [BEq α] [LawfulBEq α] (x : α) :
    ∀ (as bs : List α), (x ∈ List.eraseDups.loop as bs ↔ x ∈ as ∨ x ∈ bs)
  | [], bs => by simp [List.eraseDups.loop]
  | a :: as, bs => by
      simp only [List.eraseDups.loop]
      cases he : bs.elem a
      · rw [mem_eraseDups_loop x as (a :: bs)]
        simp only [List.mem_cons]
        tauto
      · have ha : a ∈ bs := List.elem_iff.1 he
        rw [mem_eraseDups_loop x as bs]
        simp only [List.mem_cons]
        constructor
        · tauto
        · rintro ((rfl | h) | h) <;> tauto

theorem mem_eraseDups {α} [BEq α] [LawfulBEq α] (x : α) (l : List α) :
    x ∈ l.eraseDups ↔ x ∈ l := by
  unfold List.eraseDups
  rw [mem_eraseDups_loop]
  simp

theorem nodup_eraseDups_loop {α} [BEq α] [LawfulBEq α] :
    ∀ (as bs : List α), bs.Nodup → (List.eraseDups.loop as bs).Nodup
  | [], bs, h => by
      simp only [List.eraseDups.loop]
      exact List.nodup_reverse.2 h
  | a :: as, bs, h => by
      simp only [List.eraseDups.loop]
      cases he : bs.elem a
      · refine nodup_eraseDups_loop as (a :: bs) (List.nodup_cons.2 ⟨?_, h⟩)
        intro hm
        rw [List.elem_iff.2 hm] at he
        exact Bool.noConfusion he
      · exact nodup_eraseDups_loop as bs h

theorem nodup_eraseDups {α} [BEq α] [LawfulBEq α] (l : List α) :
    l.eraseDups.Nodup := by
  unfold List.eraseDups
  exact nodup_eraseDups_loop l [] List.nodup_nil

/-- Shape of every successful creation: all validation checks passed and
the returned aggregate is the freshly built request carrying exactly the
initial `in_progress` row. -/
theorem from_json_ok (registry : List PackageManager)
    (cu : Option (Nat × String)) (kwargs : List (String × PyVal))
    (rid updated rsid : Nat) (r : Request)
    (h : Request.from_json registry cu kwargs rid updated rsid = .ok r) :
    missingParams kwargs = []
    ∧ invalidParams kwargs = []
    ∧ ∃ v repo ref,
        kwargs.lookup "pkg_managers" = some v
        ∧ kwargs.lookup "repo" = some repo
        ∧ kwargs.lookup "ref" = some ref
        ∧ v.truthy = true
        ∧ v.toStrSet.length = (foundPkgManagers registry v.toStrSet).length
        ∧ r = { id := rid, repo := repo, ref := ref
                user_id := cu.map Prod.fst, user := cu.map Prod.snd
                pkg_managers := foundPkgManagers registry v.toStrSet
                dependencies := [], environment_variables := []
                states := [⟨1, "The request was initiated", updated, rsid⟩] } := by
  unfold Request.from_json at h
  by_cases hm : missingParams kwargs ≠ []
  · rw [if_pos hm] at h; exact absurd h (by simp)
  rw [if_neg hm] at h
  by_cases hi : invalidParams kwargs ≠ []
  · rw [if_pos hi] at h; exact absurd h (by simp)
  rw [if_neg hi] at h
  cases hv : kwargs.lookup "pkg_managers" with
  | none => rw [hv] at h; exact absurd h (by simp)
  | some v =>
  simp only [hv] at h
  by_cases htr : v.truthy = true
  · rw [if_neg (not_not_intro htr)] at h
    by_cases hlen : v.toStrSet.length ≠ (foundPkgManagers registry v.toStrSet).length
    · rw [if_pos hlen] at h; exact absurd h (by simp)
    rw [if_neg hlen] at h
    cases hrepo : kwargs.lookup "repo" with
    | none => simp only [hrepo] at h; cases kwargs.lookup "ref" <;> exact absurd h (by simp)
    | some repo =>
    cases href : kwargs.lookup "ref" with
    | none => simp only [hrepo, href] at h; exact absurd h (by simp)
    | some ref =>
    simp only [hrepo, href] at h
    obtain ⟨n, hn, hr⟩ := add_state_ok _ r _ _ _ _ h
    rw [show stateMembers.lookup "in_progress" = some 1 from by decide] at hn
    injection hn with hn
    subst hn
    refine ⟨not_not.1 hm, not_not.1 hi, v, repo, ref, ?_, ?_, ?_, ?_, ?_, ?_⟩
    · rfl
    · rfl
    · rfl
    · exact htr
    · exact not_not.1 hlen
    · rw [hr]
      rfl
  · rw [if_pos (by simpa using htr)] at h
    exact absurd h (by simp)

/-! ## C1: stale is absorbing -/

/-- C1: for every request whose current state (the `last_state` row of
maximal timestamp, ties broken by id) is `stale`, `add_state` with any
target other than `stale` fails with the terminal-state error — and,
being pure, returns no updated aggregate, so the history is unchanged —
while `add_state` with target `stale` succeeds and appends a `stale` row. -/
theorem stale_is_absorbing (r : Request) (s reason : String) (t i : Nat)
    (hstale : r.currentStateName = some "stale") :
    (s ≠ "stale" → r.add_state s reason t i = .error "A stale request cannot change states")
    ∧ r.add_state "stale" reason t i =
        .ok { r with states := r.states ++ [⟨4, reason, t, i⟩] } := by
  unfold Request.currentStateName at hstale
  cases hls : r.last_state with
  | none => rw [hls] at hstale; exact absurd hstale (by simp)
  | some ls =>
      rw [hls] at hstale
      simp only [Option.some_bind] at hstale
      constructor
      · intro hs
        unfold Request.add_state
        simp only [hls, hstale]
        simp [hs]
      · unfold Request.add_state
        simp only [hls, hstale]
        simp [stateMembers, List.lookup_cons]

def rStaleC1 : Request :=
  { id := 1, repo := .str "https://example/x.git", ref := .str "c50b93a3"
    user_id := none, user := none, pkg_managers := [⟨1, "gomod"⟩]
    dependencies := [], environment_variables := []
    states := [⟨1, "The request was initiated", 10, 1⟩,
               ⟨4, "The request has expired", 20, 2⟩] }

/-- Witness for C1 at a concrete stale request. -/
theorem stale_is_absorbing_check :
    rStaleC1.add_state "complete" "Unexpired" 30 3 =
      .error "A stale request cannot change states"
    ∧ rStaleC1.add_state "stale" "again" 30 3 =
        .ok { rStaleC1 with states := rStaleC1.states ++ [⟨4, "again", 30, 3⟩] } :=
  ⟨(stale_is_absorbing rStaleC1 "complete" "Unexpired" 30 3 (by decide)).1 (by decide),
   (stale_is_absorbing rStaleC1 "stale" "again" 30 3 (by decide)).2⟩

/-! ## C2: idempotence of redundant terminal notifications -/

def rCompC2 : Request :=
  { id := 1, repo := .str "https://example/x.git", ref := .str "c50b93a3"
    user_id := none, user := none, pkg_managers := [⟨1, "gomod"⟩]
    dependencies := [], environment_variables := []
    states := [⟨1, "The request was initiated", 10, 1⟩,
               ⟨2, "Completed successfully", 20, 2⟩] }

/-- C2 counterexample: `Request.add_state` itself performs no duplicate
suppression — on a request whose current state is already `complete`,
calling it again with the identical target state (and reason) appends a
second `complete` row instead of being a no-op. -/
theorem add_state_repeats_terminal_state :
    rCompC2.add_state "complete" "Completed successfully" 30 3 =
      Except.ok { rCompC2 with
              states := rCompC2.states ++ [(⟨2, "Completed successfully", 30, 3⟩ : RequestState)] }
    ∧ (rCompC2.states ++ [(⟨2, "Completed successfully", 30, 3⟩ : RequestState)]).length
        = rCompC2.states.length + 1 := by
  constructor
  · decide
  · decide

/-- C2 (amended): the duplicate suppression lives in the state-update
entry point that calls `add_state`, not in `add_state` itself. A second
application of the same target state through that entry point is a
silent no-op: it returns the aggregate unchanged, so two successive
applications of one terminal state append at most one row. -/
theorem set_state_redundant_noop (r r1 : Request) (s re re2 : String)
    (t1 i1 t2 i2 : Nat)
    (hchain : List.Chain' chronRel r.states)
    (hfresh : ∀ x ∈ r.states, x.updated ≤ t1 ∧ x.id < i1)
    (h1 : r.set_state s re t1 i1 = .ok r1) :
    r1.set_state s re2 t2 i2 = .ok r1
    ∧ r1.states.length ≤ r.states.length + 1 := by
  have happend : ∀ (q : Request) (n : Nat), stateMembers.lookup s = some n →
      q.states = r.states ++ [⟨n, re, t1, i1⟩] →
      q.set_state s re2 t2 i2 = .ok q ∧ q.states.length ≤ r.states.length + 1 := by
    intro q n hlk hq
    have hchain' : List.Chain' chronRel q.states := by
      rw [hq]
      refine List.chain'_append.2 ⟨hchain, List.chain'_singleton _, ?_⟩
      intro x hx y hy
      simp only [List.head?_cons, Option.mem_def, Option.some.injEq] at hy
      subst hy
      exact hfresh x (List.mem_of_getLast?_eq_some hx)
    have hlast : q.last_state = some ⟨n, re, t1, i1⟩ := by
      rw [last_state_eq_getLast q hchain', hq, List.getLast?_concat]
    obtain ⟨hname, hnz⟩ := stateMembers_lookup_name hlk
    have hsn : RequestState.state_name ⟨n, re, t1, i1⟩ = some s := by
      unfold RequestState.state_name
      simpa [hnz] using hname
    constructor
    · unfold Request.set_state
      simp only [hlast, hsn]
      simp
    · rw [hq]
      simp
  unfold Request.set_state at h1
  cases hls : r.last_state with
  | none =>
      simp only [hls] at h1
      obtain ⟨n, hn, hr1⟩ := add_state_ok r r1 s re t1 i1 h1
      exact happend r1 n hn (by rw [hr1])
  | some ls =>
      simp only [hls] at h1
      by_cases hcur : (ls.state_name == some s) = true
      · rw [if_pos hcur] at h1
        injection h1 with h1
        subst h1
        constructor
        · unfold Request.set_state
          simp only [hls]
          rw [if_pos hcur]
        · exact Nat.le_succ_of_le (Nat.le_refl _)
      · rw [if_neg hcur] at h1
        obtain ⟨n, hn, hr1⟩ := add_state_ok r r1 s re t1 i1 h1
        exact happend r1 n hn (by rw [hr1])

def rFreshC2 : Request :=
  { id := 1, repo := .str "https://example/x.git", ref := .str "c50b93a3"
    user_id := none, user := none, pkg_managers := [⟨1, "gomod"⟩]
    dependencies := [], environment_variables := []
    states := [⟨1, "The request was initiated", 10, 1⟩] }

/-- Witness for the amended C2 at a concrete request: the first update to
`complete` appends a row, the second is a silent no-op. -/
theorem set_state_redundant_noop_check :
    ({ rFreshC2 with
        states := rFreshC2.states ++ [⟨2, "Completed successfully", 20, 2⟩] } : Request).set_state
          "complete" "Completed successfully" 30 3 =
      .ok { rFreshC2 with
              states := rFreshC2.states ++ [⟨2, "Completed successfully", 20, 2⟩] }
    ∧ ({ rFreshC2 with
          states := rFreshC2.states ++ [⟨2, "Completed successfully", 20, 2⟩] } : Request).states.length
        ≤ rFreshC2.states.length + 1 :=
  set_state_redundant_noop rFreshC2
    { rFreshC2 with states := rFreshC2.states ++ [⟨2, "Completed successfully", 20, 2⟩] }
    "complete" "Completed successfully" "Completed successfully" 20 2 30 3
    (List.chain'_singleton _) (by decide) (by decide)

/-! ## C9: unrecognized target states -/

def rStaleC9 : Request :=
  { id := 1, repo := .str "https://example/x.git", ref := .str "c50b93a3"
    user_id := none, user := none, pkg_managers := [⟨1, "gomod"⟩]
    dependencies := [], environment_variables := []
    states := [⟨1, "The request was initiated", 10, 1⟩,
               ⟨4, "The request has expired", 20, 2⟩] }

/-- C9 counterexample: on a request whose current state is `stale`, an
unrecognized target state is rejected by the terminal-state guard, which
runs first — the resulting message does not name the invalid state and
does not list the recognized names. -/
theorem add_state_invalid_on_stale :
    rStaleC9.add_state "call_for_support" "It broke" 30 3 =
      .error "A stale request cannot change states"
    ∧ ("A stale request cannot change states" : String)
        ≠ "The state \"call_for_support\" is invalid. It must be one of: complete, failed, in_progress, stale." := by
  constructor
  · decide
  · decide

/-- C9 (amended): for every request whose current state is not `stale`
and every target state outside the four recognized names, `add_state`
fails with the `InvalidState`-style message naming the invalid state and
listing the (sorted) recognized names, and — the operation being pure and
returning an error — no transition row is appended. -/
theorem add_state_invalid_state (r : Request) (s re : String) (t i : Nat)
    (hns : r.currentStateName ≠ some "stale")
    (hinv : s ∉ (["in_progress", "complete", "failed", "stale"] : List String)) :
    r.add_state s re t i =
      .error ("The state \"" ++ s ++ "\" is invalid. It must be one of: "
        ++ String.intercalate ", " RequestStateMapping.get_state_names ++ ".")
    ∧ RequestStateMapping.get_state_names
        = ["complete", "failed", "in_progress", "stale"] := by
  simp only [List.mem_cons, not_or] at hinv
  obtain ⟨h1, h2, h3, h4, -⟩ := hinv
  have hlk : stateMembers.lookup s = none := stateMembers_lookup_none h1 h2 h3 h4
  refine ⟨?_, by rfl⟩
  unfold Request.add_state
  unfold Request.currentStateName at hns
  cases hls : r.last_state with
  | none =>
      simp only [hls, hlk]
      rfl
  | some ls =>
      rw [hls] at hns
      simp only [Option.some_bind] at hns
      have hne : (ls.state_name == some "stale") = false := by
        simp [hns]
      simp only [hls, hne, hlk, Bool.false_and, Bool.and_eq_true, if_neg]
      simp

def rFreshC9 : Request :=
  { id := 1, repo := .str "https://example/x.git", ref := .str "c50b93a3"
    user_id := none, user := none, pkg_managers := [⟨1, "gomod"⟩]
    dependencies := [], environment_variables := []
    states := [⟨1, "The request was initiated", 10, 1⟩] }

/-- Witness for the amended C9 at a concrete in-progress request and the
unrecognized state of the repository's own test suite. -/
theorem add_state_invalid_state_check :
    rFreshC9.add_state "call_for_support" "It broke" 20 2 =
      .error ("The state \"" ++ "call_for_support" ++ "\" is invalid. It must be one of: "
        ++ String.intercalate ", " RequestStateMapping.get_state_names ++ ".")
    ∧ RequestStateMapping.get_state_names
        = ["complete", "failed", "in_progress", "stale"] :=
  add_state_invalid_state rFreshC9 "call_for_support" "It broke" 20 2
    (by decide) (by decide)

/-! ## C4: non-empty, in-progress-initialized, append-only history -/

/-- C4: every request produced by `from_json` carries, atomically with
its creation, the single initial `in_progress` transition with reason
"The request was initiated" (so its history is non-empty and that is its
first entry); and the only history-mutating core operation, `add_state`,
only ever appends: every earlier row is preserved unchanged, in place. -/
theorem history_initialized_append_only
    (registry : List PackageManager) (cu : Option (Nat × String))
    (kwargs : List (String × PyVal)) (rid updated rsid : Nat)
    (r q q' : Request) (s re : String) (t i : Nat)
    (hc : Request.from_json registry cu kwargs rid updated rsid = .ok r)
    (ha : q.add_state s re t i = .ok q') :
    r.states = [⟨1, "The request was initiated", updated, rsid⟩]
    ∧ ∃ n, q'.states = q.states ++ [⟨n, re, t, i⟩] := by
  constructor
  · obtain ⟨-, -, v, repo, ref, -, -, -, -, -, hr⟩ :=
      from_json_ok registry cu kwargs rid updated rsid r hc
    rw [hr]
  · obtain ⟨n, hn, hq'⟩ := add_state_ok q q' s re t i ha
    exact ⟨n, by rw [hq']⟩

def regC4 : List PackageManager := [⟨1, "gomod"⟩]

def kwC4 : List (String × PyVal) :=
  [("repo", .str "https://example/x.git"), ("ref", .str "c50b93a3"),
   ("pkg_managers", .strList ["gomod"])]

def qC4 : Request :=
  { rFreshC9 with
      states := rFreshC9.states
        ++ [(⟨2, "Completed successfully", 20, 2⟩ : RequestState)] }

/-- Witness for C4: a concrete successful creation and a concrete
successful append. -/
theorem history_initialized_append_only_check :
    rFreshC9.states = [(⟨1, "The request was initiated", 10, 1⟩ : RequestState)]
    ∧ ∃ n, qC4.states = rFreshC9.states
        ++ [(⟨n, "Completed successfully", 20, 2⟩ : RequestState)] :=
  history_initialized_append_only regC4 none kwC4 1 10 1
    rFreshC9 rFreshC9 qC4 "complete" "Completed successfully" 20 2
    (by decide) (by decide)

/-! ## C3: pipeline stage order -/

/-- C3: for a request with declared package managers `[a, b]` the built
pipeline is, in order: fetch-source (repo, revision, request id), one
resolve stage per package manager in declared order, archive assembly,
and a final stage appending `complete` with the fixed success reason;
the error handler addressing the same request is bound to every stage
but the last. -/
theorem build_pipeline_stages (r : Request) (a b : PackageManager)
    (h : r.pkg_managers = [a, b]) :
    build_pipeline r =
      [⟨Stage.fetchSource r.repo r.ref r.id, some r.id⟩,
       ⟨Stage.resolveDeps a.name r.id, some r.id⟩,
       ⟨Stage.resolveDeps b.name r.id, some r.id⟩,
       ⟨Stage.assembleArchive r.id, some r.id⟩,
       ⟨Stage.setState r.id "complete" "Completed successfully", none⟩] := by
  unfold build_pipeline
  rw [h]
  rfl

def rTwoPkg : Request :=
  { id := 1, repo := .str "https://example/x.git", ref := .str "c50b93a3"
    user_id := none, user := none
    pkg_managers := [⟨1, "gomod"⟩, ⟨2, "npm"⟩]
    dependencies := [], environment_variables := []
    states := [⟨1, "The request was initiated", 10, 1⟩] }

/-- Witness for C3 at a concrete two-package-manager request. -/
theorem build_pipeline_stages_check :
    build_pipeline rTwoPkg =
      [⟨Stage.fetchSource rTwoPkg.repo rTwoPkg.ref rTwoPkg.id, some rTwoPkg.id⟩,
       ⟨Stage.resolveDeps (PackageManager.name ⟨1, "gomod"⟩) rTwoPkg.id, some rTwoPkg.id⟩,
       ⟨Stage.resolveDeps (PackageManager.name ⟨2, "npm"⟩) rTwoPkg.id, some rTwoPkg.id⟩,
       ⟨Stage.assembleArchive rTwoPkg.id, some rTwoPkg.id⟩,
       ⟨Stage.setState rTwoPkg.id "complete" "Completed successfully", none⟩] :=
  build_pipeline_stages rTwoPkg ⟨1, "gomod"⟩ ⟨2, "npm"⟩ (by decide)

/-! ## C10: pkg_managers pass through set() -/

/-- C10: on every successful creation the stored package-manager
associations are the registry rows whose name occurs in the submitted
list — the list is converted to a set before resolution, so duplicates
collapse into one association and the stored order is the registry's
query order, not the caller's declared order. -/
theorem from_json_pkg_managers_from_set (registry : List PackageManager)
    (cu : Option (Nat × String)) (repo ref : PyVal) (l : List String)
    (rid updated rsid : Nat) (r : Request)
    (h : Request.from_json registry cu
        [("repo", repo), ("ref", ref), ("pkg_managers", PyVal.strList l)]
        rid updated rsid = .ok r) :
    r.pkg_managers = registry.filter (fun pm => l.contains pm.name) := by
  obtain ⟨-, -, v, repo', ref', hv, -, -, -, -, hr⟩ :=
    from_json_ok registry cu _ rid updated rsid r h
  have hveq : v = PyVal.strList l := by
    rw [show List.lookup "pkg_managers"
        [("repo", repo), ("ref", ref), ("pkg_managers", PyVal.strList l)]
        = some (PyVal.strList l) from rfl] at hv
    injection hv with hv
    exact hv.symm
  subst hveq
  rw [hr]
  show foundPkgManagers registry (PyVal.strList l).toStrSet = _
  unfold foundPkgManagers PyVal.toStrSet
  refine List.filter_congr ?_
  intro pm _
  simp [mem_eraseDups]

def regC10 : List PackageManager := [⟨1, "gomod"⟩, ⟨2, "npm"⟩]

def rC10 : Request :=
  { id := 1, repo := .str "https://example/x.git", ref := .str "c50b93a3"
    user_id := none, user := none
    pkg_managers := [⟨1, "gomod"⟩, ⟨2, "npm"⟩]
    dependencies := [], environment_variables := []
    states := [⟨1, "The request was initiated", 10, 1⟩] }

/-- Witness for C10: the caller declares `["npm", "gomod", "npm"]`, and
the stored associations are the registry-ordered, deduplicated rows. -/
theorem from_json_pkg_managers_from_set_check :
    rC10.pkg_managers
      = regC10.filter (fun pm => (["npm", "gomod", "npm"] : List String).contains pm.name) :=
  from_json_pkg_managers_from_set regC10 none
    (.str "https://example/x.git") (.str "c50b93a3")
    ["npm", "gomod", "npm"] 1 10 1 rC10 (by decide)

/-! ## C5: duplicate environment-variable names in to_json -/

theorem lookup_map_key_update (k v n : String)
    (acc : List (String × String)) :
    (acc.map (fun p => if p.1 == k then (p.1, v) else p)).lookup n
      = (acc.lookup n).map (fun w => if n == k then v else w) := by
  induction acc with
  | nil => rfl
  | cons p t ih =>
      obtain ⟨a, b⟩ := p
      simp only [List.map_cons]
      by_cases hak : a = k
      · have e : (a == k) = true := by simp [hak]
        rw [show (if ((a : String) == k) = true then ((a : String), v) else (a, b))
            = (a, v) from by rw [e]; rfl]
        rw [List.lookup_cons, List.lookup_cons]
        cases hna : n == a with
        | true =>
            have hn : n = a := by simpa using hna
            have e2 : (n == k) = true := by simp [hn, hak]
            simp [e2]
        | false => simpa using ih
      · have e : (a == k) = false := beq_false_of_ne hak
        rw [show (if ((a : String) == k) = true then ((a : String), v) else (a, b))
            = (a, b) from by simp [e]]
        rw [List.lookup_cons, List.lookup_cons]
        cases hna : n == a with
        | true =>
            have hn : n = a := by simpa using hna
            have e2 : (n == k) = false := beq_false_of_ne (hn ▸ hak)
            simp [e2]
        | false => simpa using ih

theorem any_key_lookup {k : String} {acc : List (String × String)} :
    acc.any (fun p => p.1 == k) = true ↔ (acc.lookup k).isSome := by
  induction acc with
  | nil => simp
  | cons p t ih =>
      obtain ⟨a, b⟩ := p
      by_cases hak : a = k
      · subst hak
        simp [List.lookup_cons]
      · have e : (a == k) = false := beq_false_of_ne hak
        have e2 : (k == a) = false := beq_false_of_ne (Ne.symm hak)
        simp [List.lookup_cons, e, e2, ih]

theorem lookup_odInsert (acc : List (String × String)) (k v n : String) :
    (odInsert acc (k, v)).lookup n
      = if n == k then some v else acc.lookup n := by
  unfold odInsert
  by_cases hc : acc.any (fun p => p.1 == k) = true
  · rw [if_pos hc]
    rw [lookup_map_key_update]
    by_cases hnk : n = k
    · subst hnk
      obtain ⟨w, hw⟩ := Option.isSome_iff_exists.1 (any_key_lookup.1 hc)
      simp [hw]
    · have e : (n == k) = false := beq_false_of_ne hnk
      simp [e]
  · rw [if_neg hc]
    rw [List.lookup_append]
    by_cases hnk : n = k
    · subst hnk
      have hnone : acc.lookup n = none := by
        cases ho : acc.lookup n with
        | none => rfl
        | some w => exact absurd (any_key_lookup.2 (by simp [ho])) hc
      simp [hnone, List.lookup_cons]
    · have e : (n == k) = false := beq_false_of_ne hnk
      cases ho : acc.lookup n <;> simp [ho, List.lookup_cons, e]

theorem lookup_foldl_odInsert (n : String) :
    ∀ (l acc : List (String × String)),
      (l.foldl odInsert acc).lookup n
        = (lastMatch n l).or (acc.lookup n)
  | [], acc => by simp [lastMatch]
  | (k, v) :: t, acc => by
      rw [List.foldl_cons, lookup_foldl_odInsert n t (odInsert acc (k, v))]
      rw [lookup_odInsert]
      simp only [lastMatch]
      by_cases hnk : n = k
      · subst hnk
        cases lastMatch n t <;> simp
      · have e1 : (n == k) = false := beq_false_of_ne hnk
        have e2 : (k == n) = false := beq_false_of_ne (Ne.symm hnk)
        cases lastMatch n t <;> simp [e1, e2]

/-- Looking a name up in `OrderedDict(pairs)` yields the value of the
last pair carrying that name. -/
theorem lookup_orderedDict (l : List (String × String)) (n : String) :
    (orderedDict l).lookup n = lastMatch n l := by
  unfold orderedDict
  rw [lookup_foldl_odInsert]
  simp [Option.or_none]

/-- The entry `Request.to_json` builds for one state row whose state
value is a member of the enumeration. -/
def stateJsonOf (s : RequestState) : StateJson :=
  ⟨(RequestStateMapping.name? s.state).getD "", s.state_reason, s.updated⟩

theorem mapM_stateToJson (l : List RequestState)
    (hv : ∀ s ∈ l, (RequestStateMapping.name? s.state).isSome) :
    l.mapM stateToJson = .ok (l.map stateJsonOf) := by
  induction l with
  | nil => rfl
  | cons s t ih =>
      rw [List.mapM_cons]
      obtain ⟨n, hn⟩ := Option.isSome_iff_exists.1 (hv s (List.mem_cons_self s t))
      have hs : stateToJson s = .ok (stateJsonOf s) := by
        unfold stateToJson stateJsonOf
        rw [hn]
        rfl
      rw [hs, ih (fun x hx => hv x (List.mem_cons_of_mem s hx))]
      rfl

/-- A snapshot succeeds whenever the history is non-empty and every
stored state value is a member of the enumeration, and its content is
determined field by field. -/
theorem to_json_ok (r : Request) (ls : RequestState)
    (hlast : r.states.getLast? = some ls)
    (hv : ∀ s ∈ r.states, (RequestStateMapping.name? s.state).isSome) :
    r.to_json = .ok
      { dependencies := r.dependencies, id := r.id, repo := r.repo, ref := r.ref
        pkg_managers := r.pkg_managers.map PackageManager.name
        state_history := (r.states.map stateJsonOf).reverse
        user := r.user
        environment_variables :=
          orderedDict (r.environment_variables.map (fun e => (e.name, e.value)))
        state := (stateJsonOf ls).state
        state_reason := (stateJsonOf ls).state_reason
        updated := (stateJsonOf ls).updated } := by
  unfold Request.to_json
  rw [mapM_stateToJson r.states hv]
  have hh : ((r.states.map stateJsonOf).reverse).head? = some (stateJsonOf ls) := by
    rw [List.head?_reverse, List.getLast?_map, hlast]
    rfl
  show (match (List.map stateJsonOf r.states).reverse.head? with
    | none => (Except.error "IndexError: list index out of range" : Except String RequestJson)
    | some latest_state =>
        Except.ok
          { dependencies := r.dependencies, id := r.id, repo := r.repo, ref := r.ref
            pkg_managers := List.map PackageManager.name r.pkg_managers
            state_history := (List.map stateJsonOf r.states).reverse
            user := r.user
            environment_variables :=
              orderedDict (List.map (fun (e : EnvironmentVariable) => (e.name, e.value))
                r.environment_variables)
            state := latest_state.state, state_reason := latest_state.state_reason
            updated := latest_state.updated }) = _
  rw [hh]

def rDupEnv : Request :=
  { id := 1, repo := .str "https://example/x.git", ref := .str "c50b93a3"
    user_id := none, user := none, pkg_managers := [⟨1, "gomod"⟩]
    dependencies := []
    environment_variables := [⟨"A", "1"⟩, ⟨"A", "2"⟩]
    states := [⟨1, "The request was initiated", 10, 1⟩] }

/-- C5 counterexample: on a stored request whose environment-variable
associations carry the name "A" twice with different values, `to_json`
does not raise — it succeeds, silently binding "A" to the later value
and dropping the earlier one. -/
theorem to_json_duplicate_env_silent :
    rDupEnv.to_json = Except.ok
      { dependencies := [], id := 1
        repo := PyVal.str "https://example/x.git", ref := PyVal.str "c50b93a3"
        pkg_managers := ["gomod"]
        state_history := [⟨"in_progress", "The request was initiated", 10⟩]
        user := none
        environment_variables := [("A", "2")]
        state := "in_progress", state_reason := "The request was initiated"
        updated := 10 }
    ∧ (rDupEnv.environment_variables.map (fun e => (e.name, e.value)))
        = [("A", "1"), ("A", "2")] := by
  constructor
  · decide
  · decide

/-- C5 (amended): constructing the environment-variable mapping in
`to_json` never fails on a duplicate name; the snapshot succeeds and the
exported mapping silently binds each name to the value of the last
stored association under that name, dropping the earlier values. -/
theorem to_json_env_last_wins (r : Request) (n : String) (ls : RequestState)
    (hlast : r.states.getLast? = some ls)
    (hv : ∀ s ∈ r.states, (RequestStateMapping.name? s.state).isSome) :
    ∃ j, r.to_json = .ok j
      ∧ j.environment_variables.lookup n
          = lastMatch n (r.environment_variables.map (fun e => (e.name, e.value))) :=
  ⟨_, to_json_ok r ls hlast hv, lookup_orderedDict _ n⟩

/-- Witness for the amended C5 at the concrete duplicate-name request. -/
theorem to_json_env_last_wins_check :
    ∃ j, rDupEnv.to_json = .ok j
      ∧ j.environment_variables.lookup "A"
          = lastMatch "A" (rDupEnv.environment_variables.map (fun e => (e.name, e.value))) :=
  to_json_env_last_wins rDupEnv "A" ⟨1, "The request was initiated", 10, 1⟩
    (by decide) (by decide)

/-! ## C6: snapshot ordering and promoted current state -/

/-- C6: on a chronologically stored non-empty history of recognized
states, `to_json` succeeds, returns the transition history newest-first,
and promotes to top level the state name, reason and timestamp of
`last_state` — the transition with the latest timestamp, ties broken by
the latest row id (most recently appended). -/
theorem to_json_newest_first_current (r : Request) (ls : RequestState)
    (hchain : List.Chain' chronRel r.states)
    (hlast : r.last_state = some ls)
    (hv : ∀ s ∈ r.states, (RequestStateMapping.name? s.state).isSome) :
    ∃ j, r.to_json = .ok j
      ∧ j.state_history = (r.states.map stateJsonOf).reverse
      ∧ j.state = (RequestStateMapping.name? ls.state).getD ""
      ∧ j.state_reason = ls.state_reason
      ∧ j.updated = ls.updated := by
  have hl : r.states.getLast? = some ls := by
    rw [← last_state_eq_getLast r hchain]
    exact hlast
  exact ⟨_, to_json_ok r ls hl hv, rfl, rfl, rfl, rfl⟩

def rC6 : Request :=
  { id := 1, repo := .str "https://example/x.git", ref := .str "c50b93a3"
    user_id := none, user := some "tbrady", pkg_managers := [⟨1, "gomod"⟩]
    dependencies := [], environment_variables := []
    states := [⟨1, "The request was initiated", 10, 1⟩,
               ⟨2, "Completed successfully", 20, 2⟩] }

/-- Witness for C6 at a concrete two-transition request. -/
theorem to_json_newest_first_current_check :
    ∃ j, rC6.to_json = .ok j
      ∧ j.state_history = (rC6.states.map stateJsonOf).reverse
      ∧ j.state = (RequestStateMapping.name?
          (⟨2, "Completed successfully", 20, 2⟩ : RequestState).state).getD ""
      ∧ j.state_reason = (⟨2, "Completed successfully", 20, 2⟩ : RequestState).state_reason
      ∧ j.updated = (⟨2, "Completed successfully", 20, 2⟩ : RequestState).updated :=
  to_json_newest_first_current rC6 ⟨2, "Completed successfully", 20, 2⟩
    (List.chain'_cons.2 ⟨⟨by decide, by decide⟩, List.chain'_singleton _⟩)
    (by decide) (by decide)

/-! ## C7: creation validation -/

theorem toStrSet_nodup (v : PyVal) : v.toStrSet.Nodup := by
  cases v <;> exact nodup_eraseDups _

theorem truthy_of_toStrSet_mem (v : PyVal) (nm : String)
    (h : nm ∈ v.toStrSet) : v.truthy = true := by
  cases v with
  | str s =>
      unfold PyVal.truthy
      simp only [PyVal.toStrSet] at h
      have := (mem_eraseDups nm _).1 h
      have hne : s.data ≠ [] := by
        intro he
        rw [he] at this
        simp at this
      simp only [ne_eq, decide_eq_true_eq]
      intro he
      exact hne (congrArg String.data he)
  | strList l =>
      unfold PyVal.truthy
      simp only [PyVal.toStrSet] at h
      have := (mem_eraseDups nm _).1 h
      simp only [ne_eq, decide_eq_true_eq]
      intro he
      rw [he] at this
      exact List.not_mem_nil nm this

theorem foundPkgManagers_names (registry : List PackageManager)
    (names : List String) :
    (foundPkgManagers registry names).map PackageManager.name
      = (registry.map PackageManager.name).filter (fun nm => names.contains nm) := by
  unfold foundPkgManagers
  rw [List.filter_map]
  rfl

theorem filtered_length_lt (names registryNames : List String)
    (hrn : registryNames.Nodup) (nm : String)
    (hmem : nm ∈ names) (hnot : nm ∉ registryNames) :
    (registryNames.filter (fun x => names.contains x)).length < names.length := by
  have hfn : (registryNames.filter (fun x => names.contains x)).Nodup :=
    hrn.filter _
  have hsub : (registryNames.filter (fun x => names.contains x)) ⊆ names.erase nm := by
    intro x hx
    have hx1 : x ∈ registryNames := List.mem_of_mem_filter hx
    have hx2 : x ∈ names := by
      have := List.of_mem_filter hx
      simpa [List.contains] using this
    have hxne : x ≠ nm := fun he => hnot (he ▸ hx1)
    exact (List.mem_erase_of_ne hxne).2 hx2
  have hsp := List.subperm_of_subset hfn hsub
  have hle := hsp.length_le
  have herase : (names.erase nm).length = names.length - 1 :=
    List.length_erase_of_mem hmem
  have hpos : 0 < names.length := List.length_pos.2 (List.ne_nil_of_mem hmem)
  omega

theorem all_found_of_length_eq (names registryNames : List String)
    (hrn : registryNames.Nodup)
    (hlen : names.length = (registryNames.filter (fun x => names.contains x)).length) :
    ∀ nm ∈ names, nm ∈ registryNames := by
  intro nm hmem
  by_contra hnot
  have := filtered_length_lt names registryNames hrn nm hmem hnot
  omega

/-- C7: creation fails with a `ValidationError` when a required field is
missing, when an extraneous field is supplied, when the package-manager
list is empty, or when a requested package-manager name is unregistered
(the error then names the invalid names); and a request is created only
when every one of these checks passes. The registry is assumed free of
duplicate names (the deployment seeds each package manager once). -/
theorem from_json_validation (registry : List PackageManager)
    (cu : Option (Nat × String)) (kwargs : List (String × PyVal))
    (rid updated rsid : Nat)
    (hreg : (registry.map PackageManager.name).Nodup) :
    ((∃ k ∈ requiredParams, k ∉ kwargs.map Prod.fst) →
        ∃ msg, Request.from_json registry cu kwargs rid updated rsid = .error msg)
    ∧ ((∃ k ∈ kwargs.map Prod.fst, k ∉ requiredParams) →
        ∃ msg, Request.from_json registry cu kwargs rid updated rsid = .error msg)
    ∧ (kwargs.lookup "pkg_managers" = some (PyVal.strList []) →
        ∃ msg, Request.from_json registry cu kwargs rid updated rsid = .error msg)
    ∧ (∀ v nm, (∀ k ∈ requiredParams, k ∈ kwargs.map Prod.fst) →
        (∀ k ∈ kwargs.map Prod.fst, k ∈ requiredParams) →
        kwargs.lookup "pkg_managers" = some v →
        nm ∈ v.toStrSet → nm ∉ registry.map PackageManager.name →
        Request.from_json registry cu kwargs rid updated rsid
            = .error ("Invalid package manager(s): "
                ++ String.intercalate ", " (invalidPkgManagers registry v.toStrSet))
          ∧ nm ∈ invalidPkgManagers registry v.toStrSet)
    ∧ (∀ r, Request.from_json registry cu kwargs rid updated rsid = .ok r →
        (∀ k ∈ requiredParams, k ∈ kwargs.map Prod.fst)
        ∧ (∀ k ∈ kwargs.map Prod.fst, k ∈ requiredParams)
        ∧ ∃ v, kwargs.lookup "pkg_managers" = some v ∧ v.truthy = true
            ∧ ∀ nm ∈ v.toStrSet, nm ∈ registry.map PackageManager.name) := by
  refine ⟨?_, ?_, ?_, ?_, ?_⟩
  · rintro ⟨k, hk, hnk⟩
    have hm : missingParams kwargs ≠ [] := by
      intro he
      rw [missingParams, List.filter_eq_nil_iff] at he
      exact hnk (by simpa using he k hk)
    unfold Request.from_json
    rw [if_pos hm]
    exact ⟨_, rfl⟩
  · rintro ⟨k, hk, hnk⟩
    by_cases hm : missingParams kwargs ≠ []
    · unfold Request.from_json
      rw [if_pos hm]
      exact ⟨_, rfl⟩
    · have hi : invalidParams kwargs ≠ [] := by
        refine List.ne_nil_of_mem (a := k) ?_
        rw [invalidParams, List.mem_filter]
        exact ⟨hk, by simpa using hnk⟩
      unfold Request.from_json
      rw [if_neg hm, if_pos hi]
      exact ⟨_, rfl⟩
  · intro hv
    by_cases hm : missingParams kwargs ≠ []
    · unfold Request.from_json
      rw [if_pos hm]
      exact ⟨_, rfl⟩
    by_cases hi : invalidParams kwargs ≠ []
    · unfold Request.from_json
      rw [if_neg hm, if_pos hi]
      exact ⟨_, rfl⟩
    · unfold Request.from_json
      rw [if_neg hm, if_neg hi]
      simp only [hv]
      rw [if_pos (by decide)]
      exact ⟨_, rfl⟩
  · intro v nm hall honly hv hmem hnot
    have hm : ¬ missingParams kwargs ≠ [] := by
      rw [missingParams, ne_eq, not_not, List.filter_eq_nil_iff]
      intro k hk
      simpa using hall k hk
    have hi : ¬ invalidParams kwargs ≠ [] := by
      rw [invalidParams, ne_eq, not_not, List.filter_eq_nil_iff]
      intro k hk
      simpa using honly k hk
    have htr : ¬ ¬ v.truthy = true :=
      not_not_intro (truthy_of_toStrSet_mem v nm hmem)
    have hlt : ((foundPkgManagers registry v.toStrSet).map PackageManager.name).length
        < v.toStrSet.length := by
      rw [foundPkgManagers_names]
      exact filtered_length_lt v.toStrSet (registry.map PackageManager.name)
        hreg nm hmem hnot
    have hlen : v.toStrSet.length ≠ (foundPkgManagers registry v.toStrSet).length := by
      rw [← List.length_map (foundPkgManagers registry v.toStrSet) PackageManager.name]
      omega
    have hbad : nm ∈ invalidPkgManagers registry v.toStrSet := by
      rw [invalidPkgManagers, List.mem_filter]
      refine ⟨hmem, ?_⟩
      have hnm : nm ∉ (foundPkgManagers registry v.toStrSet).map PackageManager.name := by
        rw [foundPkgManagers_names]
        intro hc
        exact hnot (List.mem_of_mem_filter hc)
      simpa using hnm
    refine ⟨?_, hbad⟩
    unfold Request.from_json
    rw [if_neg hm, if_neg hi]
    simp only [hv]
    rw [if_neg htr, if_pos hlen]
  · intro r hr
    obtain ⟨hm, hi, v, repo, ref, hv, -, -, htr, hlen, -⟩ :=
      from_json_ok registry cu kwargs rid updated rsid r hr
    rw [missingParams, List.filter_eq_nil_iff] at hm
    rw [invalidParams, List.filter_eq_nil_iff] at hi
    refine ⟨fun k hk => by simpa using hm k hk, fun k hk => by simpa using hi k hk,
      v, hv, htr, ?_⟩
    have := all_found_of_length_eq v.toStrSet (registry.map PackageManager.name)
      hreg ?_
    · exact this
    · rw [← foundPkgManagers_names, List.length_map]
      exact hlen

def regC7 : List PackageManager := [⟨1, "gomod"⟩]

def rC7ok : Request :=
  { id := 1, repo := .str "https://example/x.git", ref := .str "c50b93a3"
    user_id := none, user := none, pkg_managers := [⟨1, "gomod"⟩]
    dependencies := [], environment_variables := []
    states := [⟨1, "The request was initiated", 10, 1⟩] }

/-- Witness for C7: with the one-entry registry, a submission naming the
unregistered manager "pip" is rejected with a message naming it, and a
successful well-formed submission implies every check passed. -/
theorem from_json_validation_check :
    (Request.from_json regC7 none
        [("repo", .str "https://example/x.git"), ("ref", .str "c50b93a3"),
         ("pkg_managers", PyVal.strList ["pip"])] 1 10 1
      = .error ("Invalid package manager(s): "
          ++ String.intercalate ", "
               (invalidPkgManagers regC7 (PyVal.strList ["pip"]).toStrSet))
      ∧ "pip" ∈ invalidPkgManagers regC7 (PyVal.strList ["pip"]).toStrSet)
    ∧ (∀ k ∈ requiredParams,
        k ∈ (([("repo", PyVal.str "https://example/x.git"), ("ref", PyVal.str "c50b93a3"),
              ("pkg_managers", PyVal.strList ["gomod"])] : List (String × PyVal)).map Prod.fst)) :=
  ⟨(from_json_validation regC7 none
      [("repo", .str "https://example/x.git"), ("ref", .str "c50b93a3"),
       ("pkg_managers", PyVal.strList ["pip"])] 1 10 1 (by decide)).2.2.2.1
      (PyVal.strList ["pip"]) "pip" (by decide) (by decide) (by decide)
      (by decide) (by decide),
   ((from_json_validation regC7 none
      [("repo", .str "https://example/x.git"), ("ref", .str "c50b93a3"),
       ("pkg_managers", PyVal.strList ["gomod"])] 1 10 1 (by decide)).2.2.2.2
      rC7ok (by decide)).1⟩

/-! ## C8: reconciliation input validation -/

theorem except_bind_ok {α β : Type} (a : α) (f : α → Except String β) :
    (Except.ok a >>= f) = f a := rfl

theorem except_bind_error {α β : Type} (e : String) (f : α → Except String β) :
    ((Except.error e : Except String α) >>= f) = .error e := rfl

theorem keysNTV_iff (l : List (String × JSON)) :
    keysAreNameTypeVersion l = true
      ↔ (∀ k, k ∈ l.map Prod.fst ↔ k ∈ (["name", "type", "version"] : List String)) := by
  unfold keysAreNameTypeVersion
  rw [Bool.and_eq_true, List.all_eq_true, List.all_eq_true]
  constructor
  · rintro ⟨h1, h2⟩ k
    constructor
    · intro hk
      simpa [List.contains] using h2 k hk
    · intro hk
      simpa [List.contains] using h1 k hk
  · intro h
    constructor
    · intro k hk
      simpa [List.contains] using (h k).2 hk
    · intro k hk
      simpa [List.contains] using (h k).1 hk

theorem lookup_isSome_of_key_mem {l : List (String × JSON)} {k : String}
    (h : k ∈ l.map Prod.fst) : ∃ w, l.lookup k = some w := by
  induction l with
  | nil => simp at h
  | cons p t ih =>
      obtain ⟨a, b⟩ := p
      cases hb : (k == a) with
      | true => exact ⟨b, by rw [List.lookup_cons, hb]⟩
      | false =>
          have hkt : k ∈ t.map Prod.fst := by
            simp only [List.map_cons, List.mem_cons] at h
            rcases h with h | h
            · rw [h] at hb
              simp at hb
            · exact h
          obtain ⟨w, hw⟩ := ih hkt
          exact ⟨w, by rw [List.lookup_cons, hb, hw]⟩

theorem checkDepKey_ok_iff (l : List (String × JSON)) (k : String) :
    checkDepKey l k = .ok () ↔ ∃ s, l.lookup k = some (JSON.str s) := by
  unfold checkDepKey
  cases hl : l.lookup k with
  | none => simp
  | some w => cases w <;> simp

theorem checkDepKey_error_msg (l : List (String × JSON)) (k msg : String)
    (hsome : ∃ w, l.lookup k = some w)
    (h : checkDepKey l k = .error msg) :
    msg = "The \"" ++ k ++ "\" key of the dependency must be a string" := by
  obtain ⟨w, hw⟩ := hsome
  unfold checkDepKey at h
  rw [hw] at h
  cases w <;> simp_all

/-- C8: `Dependency.validate_json` accepts exactly the JSON objects whose
key set is exactly name/type/version with each key bound to a string, and
every rejection message identifies either the offending shape or the
offending key; `EnvironmentVariable.validate_json` accepts exactly string
values. -/
theorem validate_json_shapes (d : JSON) (envName : String) (v : JSON) :
    (∀ u : Unit, Dependency.validate_json d = .ok u →
        ∃ l, d = JSON.obj l
          ∧ (∀ k, k ∈ l.map Prod.fst ↔ k ∈ (["name", "type", "version"] : List String))
          ∧ ∀ k ∈ (["name", "type", "version"] : List String),
              ∃ s, l.lookup k = some (JSON.str s))
    ∧ (∀ l, d = JSON.obj l →
        (∀ k, k ∈ l.map Prod.fst ↔ k ∈ (["name", "type", "version"] : List String)) →
        (∀ k ∈ (["name", "type", "version"] : List String),
            ∃ s, l.lookup k = some (JSON.str s)) →
        Dependency.validate_json d = .ok ())
    ∧ (∀ msg, Dependency.validate_json d = .error msg →
        msg = "A dependency must be a JSON object with the keys name, type, and version"
        ∨ ∃ k ∈ (["name", "type", "version"] : List String),
            msg = "The \"" ++ k ++ "\" key of the dependency must be a string")
    ∧ (EnvironmentVariable.validate_json envName v = .ok () ↔ ∃ s, v = JSON.str s) := by
  refine ⟨?_, ?_, ?_, ?_⟩
  · rintro ⟨⟩ h
    cases d with
    | obj l =>
        refine ⟨l, rfl, ?_, ?_⟩ <;> simp only [Dependency.validate_json] at h
        all_goals
          by_cases hkeys : keysAreNameTypeVersion l = true
        · exact (keysNTV_iff l).1 hkeys
        · rw [if_neg hkeys] at h
          exact absurd h (by simp)
        · rw [if_pos hkeys] at h
          intro k hk
          cases hname : checkDepKey l "name" with
          | error e =>
              rw [hname, except_bind_error] at h
              exact absurd h (by simp)
          | ok u0 =>
              cases u0
              cases htype : checkDepKey l "type" with
              | error e =>
                  rw [hname, htype, except_bind_ok, except_bind_error] at h
                  exact absurd h (by simp)
              | ok u1 =>
                  cases u1
                  rw [hname, htype, except_bind_ok, except_bind_ok] at h
                  have hver := (checkDepKey_ok_iff l "version").1 h
                  have hnm := (checkDepKey_ok_iff l "name").1 hname
                  have htp := (checkDepKey_ok_iff l "type").1 htype
                  simp only [List.mem_cons, List.not_mem_nil, or_false] at hk
                  rcases hk with rfl | rfl | rfl
                  · exact hnm
                  · exact htp
                  · exact hver
        · rw [if_neg hkeys] at h
          exact absurd h (by simp)
    | null => exact absurd h (by simp [Dependency.validate_json])
    | bool b => exact absurd h (by simp [Dependency.validate_json])
    | num n => exact absurd h (by simp [Dependency.validate_json])
    | str s => exact absurd h (by simp [Dependency.validate_json])
    | arr a => exact absurd h (by simp [Dependency.validate_json])
  · intro l hd hkeys hstr
    subst hd
    simp only [Dependency.validate_json]
    rw [if_pos ((keysNTV_iff l).2 hkeys)]
    rw [(checkDepKey_ok_iff l "name").2 (hstr "name" (by simp)), except_bind_ok]
    rw [(checkDepKey_ok_iff l "type").2 (hstr "type" (by simp)), except_bind_ok]
    exact (checkDepKey_ok_iff l "version").2 (hstr "version" (by simp))
  · intro msg h
    cases d with
    | obj l =>
        simp only [Dependency.validate_json] at h
        by_cases hkeys : keysAreNameTypeVersion l = true
        · rw [if_pos hkeys] at h
          right
          have hmem : ∀ k ∈ (["name", "type", "version"] : List String),
              ∃ w, l.lookup k = some w := by
            intro k hk
            exact lookup_isSome_of_key_mem (((keysNTV_iff l).1 hkeys k).2 hk)
          cases hname : checkDepKey l "name" with
          | error e =>
              rw [hname, except_bind_error] at h
              injection h with h
              subst h
              exact ⟨"name", by simp,
                checkDepKey_error_msg l "name" _ (hmem "name" (by simp)) hname⟩
          | ok u0 =>
              cases u0
              rw [hname, except_bind_ok] at h
              cases htype : checkDepKey l "type" with
              | error e =>
                  rw [htype, except_bind_error] at h
                  injection h with h
                  subst h
                  exact ⟨"type", by simp,
                    checkDepKey_error_msg l "type" _ (hmem "type" (by simp)) htype⟩
              | ok u1 =>
                  cases u1
                  rw [htype, except_bind_ok] at h
                  exact ⟨"version", by simp,
                    checkDepKey_error_msg l "version" _ (hmem "version" (by simp)) h⟩
        · rw [if_neg hkeys] at h
          injection h with h
          exact Or.inl h.symm
    | null => left; unfold Dependency.validate_json at h; injection h with h; exact h.symm
    | bool b => left; unfold Dependency.validate_json at h; injection h with h; exact h.symm
    | num n => left; unfold Dependency.validate_json at h; injection h with h; exact h.symm
    | str s => left; unfold Dependency.validate_json at h; injection h with h; exact h.symm
    | arr a => left; unfold Dependency.validate_json at h; injection h with h; exact h.symm
  · unfold EnvironmentVariable.validate_json
    cases v <;> simp

/-- Witness for C8: a well-formed dependency object validates, the
repository test suite's non-string version is rejected with the message
naming the "version" key, and a string environment value validates. -/
theorem validate_json_shapes_check :
    Dependency.validate_json
        (JSON.obj [("name", JSON.str "github.com/Masterminds/semver"),
                   ("type", JSON.str "gomod"), ("version", JSON.str "v3.0")])
      = .ok ()
    ∧ EnvironmentVariable.validate_json "spam" (JSON.str "maps") = .ok () :=
  ⟨(validate_json_shapes
      (JSON.obj [("name", JSON.str "github.com/Masterminds/semver"),
                 ("type", JSON.str "gomod"), ("version", JSON.str "v3.0")])
      "spam" (JSON.str "maps")).2.1 _ rfl
      (by intro k; constructor <;> (intro hk; simp at hk; simp [hk]))
      (by
        intro k hk
        simp only [List.mem_cons, List.not_mem_nil, or_false] at hk
        rcases hk with rfl | rfl | rfl
        · exact ⟨"github.com/Masterminds/semver", rfl⟩
        · exact ⟨"gomod", rfl⟩
        · exact ⟨"v3.0", rfl⟩),
   (validate_json_shapes
      (JSON.obj [("name", JSON.str "github.com/Masterminds/semver"),
                 ("type", JSON.str "gomod"), ("version", JSON.str "v3.0")])
      "spam" (JSON.str "maps")).2.2.2.mpr ⟨"maps", rfl⟩⟩

end Cachito
